import Mathlib

/-!
A verification development for `app.py` of the `data_analysis_tools`
repository.  The heart of the program is `analyze_csv_data`, which parses
CSV text with `pandas.read_csv`, classifies every column as numeric or
categorical by the 80% rule, computes descriptive statistics and renders a
text summary.  We embed that routine shallowly: cell values are character
lists, missing cells are `Option.none`, IEEE doubles are idealised as exact
rationals, and the fragment of `pandas.read_csv` exercised by the program
(comma separation, default NA markers, blank-line skipping, ragged-row
handling with implicit-index inference, no quoting) is modelled directly.
-/

namespace DataTools

/-- A raw field token of the CSV text. -/
abbrev Field := List Char

/-- A cell of the parsed table: `none` is pandas' missing marker `NaN`. -/
abbrev Cell := Option Field

/-- Split a character list at every occurrence of the separator `sep`.
Always returns at least one (possibly empty) field. -/
def splitChar (sep : Char) : List Char → List (List Char)
  | [] => [[]]
  | c :: cs =>
    match splitChar sep cs with
    | [] => [[]]
    | f :: r => if c = sep then [] :: f :: r else (c :: f) :: r

/-- Join fields, placing the separator `sep` between consecutive fields. -/
def joinSep (sep : Char) : List (List Char) → List Char
  | [] => []
  | [f] => f
  | f :: g :: r => f ++ sep :: joinSep sep (g :: r)

/-- Render a list of lines as a document, every line terminated by `'\n'`
(the line terminator used by `DataFrame.to_csv`). -/
def linesToDoc (ls : List (List Char)) : List Char :=
  ls.foldr (fun l acc => l ++ '\n' :: acc) []

/-- pandas' default NA markers: the raw tokens `read_csv` converts to the
missing value `NaN`. -/
def naValues : List Field :=
  ["", "#N/A", "#N/A N/A", "#NA", "-1.#IND", "-1.#QNAN", "-NaN", "-nan",
   "1.#IND", "1.#QNAN", "<NA>", "N/A", "NA", "NULL", "NaN", "None",
   "n/a", "nan", "null"].map String.data

/-- Reading one raw field into a cell: default NA markers become missing. -/
def parseField (f : Field) : Cell :=
  if f ∈ naValues then none else some f

/-- Numeric value of a digit list read in base 10. -/
def natOfDigits (ds : List Char) : Nat :=
  ds.foldl (fun a c => 10 * a + (c.toNat - 48)) 0

/-- The integer-and-fraction part of a numeric literal: greedy digits, an
optional point followed by greedy digits; at least one digit in total. -/
def parseMantissa (cs : List Char) : Option (ℚ × List Char) :=
  let p := cs.span Char.isDigit
  match p.2 with
  | '.' :: t =>
    let q := t.span Char.isDigit
    if p.1 = [] ∧ q.1 = [] then none
    else some ((natOfDigits p.1 : ℚ) + (natOfDigits q.1 : ℚ) / (10 : ℚ) ^ q.1.length, q.2)
  | r => if p.1 = [] then none else some ((natOfDigits p.1 : ℚ), r)

/-- An exponent suffix: optional sign, then one or more digits, nothing after. -/
def parseExpPart (cs : List Char) : Option ℤ :=
  let p : ℤ × List Char :=
    match cs with
    | '-' :: t => (-1, t)
    | '+' :: t => (1, t)
    | t => (1, t)
  if p.2 ≠ [] ∧ p.2.all Char.isDigit then some (p.1 * natOfDigits p.2) else none

/-- Scale by a power of ten with an integer exponent. -/
def scalePow10 (v : ℚ) (k : ℤ) : ℚ :=
  if 0 ≤ k then v * (10 : ℚ) ^ k.toNat else v / (10 : ℚ) ^ (-k).toNat

/-- Model of `pd.to_numeric(·, errors='coerce')` on one raw string token:
an optional sign followed by a decimal literal with optional fractional
part and optional scientific exponent, surrounded by optional spaces.
(IEEE special tokens such as `inf` lie outside the rational fragment we
model, and the parsed double is idealised as the exact rational.) -/
def parseNumeric (f : Field) : Option ℚ :=
  let cs := ((f.dropWhile (· = ' ')).reverse.dropWhile (· = ' ')).reverse
  let sgn : ℚ × List Char :=
    match cs with
    | '-' :: t => (-1, t)
    | '+' :: t => (1, t)
    | t => (1, t)
  match parseMantissa sgn.2 with
  | none => none
  | some (v, rest) =>
    match rest with
    | [] => some (sgn.1 * v)
    | e :: t =>
      if e = 'e' ∨ e = 'E' then
        match parseExpPart t with
        | none => none
        | some k => some (sgn.1 * scalePow10 v k)
      else none

/-- Minimum of a nonempty list of rationals (`Series.min`). -/
def listMin : List ℚ → ℚ
  | [] => 0
  | x :: xs => xs.foldl min x

/-- Maximum of a nonempty list of rationals (`Series.max`). -/
def listMax : List ℚ → ℚ
  | [] => 0
  | x :: xs => xs.foldl max x

/-- Arithmetic mean (`Series.mean`). -/
def listMean (xs : List ℚ) : ℚ := xs.sum / xs.length

/-- Insertion into a sorted list; the sorting used for the median. -/
def insertSorted (x : ℚ) : List ℚ → List ℚ
  | [] => [x]
  | y :: ys => if x ≤ y then x :: y :: ys else y :: insertSorted x ys

/-- Insertion sort of the values (kernel-reducible stand-in for the sort
performed inside `Series.median`). -/
def sortQ (xs : List ℚ) : List ℚ := xs.foldr insertSorted []

/-- `Series.median`: middle element of the sorted values, or the average of
the two middle elements for an even count. -/
def listMedian (xs : List ℚ) : ℚ :=
  let s := sortQ xs
  let n := s.length
  if n % 2 = 1 then s.getD (n / 2) 0
  else if n = 0 then 0
  else (s.getD (n / 2 - 1) 0 + s.getD (n / 2) 0) / 2

/-- `Series.std`: pandas computes the sample variance with denominator
`n − 1` as the mean of the squared deviations from the mean, and reports
its square root; `none` models the `NaN` it reports for fewer than two
values. -/
def sampleVar (xs : List ℚ) : Option ℚ :=
  if xs.length ≤ 1 then none
  else some ((xs.map (fun x => (x - listMean xs) ^ 2)).sum / ((xs.length : ℚ) - 1))

/-- `Series.value_counts().to_dict()` over the non-missing raw values: the
distinct values, each with its number of occurrences.  (pandas lists keys
by descending count; the dictionary contents are order-independent and we
enumerate the keys in `List.dedup` order.) -/
def valueCounts (vals : List Cell) : List (Field × Nat) :=
  let vs := vals.filterMap id
  vs.dedup.map (fun v => (v, vs.count v))

/-- The statistics dictionary built for a numeric column (`app.py`
lines 50–59).  `std2` is the sample variance; the program reports its
square root as `'std'`. -/
structure NumericInfo where
  min : ℚ
  max : ℚ
  mean : ℚ
  median : ℚ
  std2 : Option ℚ
  count : Nat
  missing_count : Nat
deriving DecidableEq

/-- The dictionary built for a categorical column (`app.py` lines 60–68). -/
structure CatInfo where
  unique_values : Nat
  counts : List (Field × Nat)
  missing_count : Nat
deriving DecidableEq

/-- The per-column entry of `column_info`. -/
inductive ColInfo where
  | numeric (i : NumericInfo)
  | categorical (i : CatInfo)
deriving DecidableEq

/-- Whether a column was classified as numeric. -/
def ColInfo.isNumeric : ColInfo → Bool
  | .numeric _ => true
  | .categorical _ => false

/-- `pd.to_numeric(col_data, errors='coerce').dropna()`: the non-missing
values of the column that parse as numbers. -/
def numericColData (vals : List Cell) : List ℚ :=
  (vals.filterMap id).filterMap parseNumeric

/-- `col_data.isnull().sum()`. -/
def missingCount (vals : List Cell) : Nat := vals.countP Option.isNone

/-- The per-column analysis of `analyze_csv_data` (lines 38–68): the column
is numeric when the parsed numeric values are nonempty and make up more
than 80% of the non-missing values, otherwise categorical.  The float
literal `0.8` is idealised as the exact rational `4/5`. -/
def classify (vals : List Cell) : ColInfo :=
  if numericColData vals ≠ [] ∧
      (0.8 : ℚ) < ((numericColData vals).length : ℚ) /
        ((vals.length - missingCount vals : ℕ) : ℚ) then
    .numeric { min := listMin (numericColData vals), max := listMax (numericColData vals),
               mean := listMean (numericColData vals),
               median := listMedian (numericColData vals),
               std2 := sampleVar (numericColData vals),
               count := (numericColData vals).length,
               missing_count := missingCount vals }
  else
    .categorical { unique_values := (valueCounts vals).length,
                   counts := valueCounts vals, missing_count := missingCount vals }

/-- The parsed table: the header names and the data rows (each row one
cell per column).  Models the `DataFrame` built by `pd.read_csv`. -/
structure Dataset where
  header : List Field
  rows : List (List Cell)
deriving DecidableEq

/-- The nonblank lines of the document (`read_csv` skips blank lines). -/
def csvLines (doc : List Char) : List (List Char) :=
  (splitChar '\n' doc).filter (fun l => !l.isEmpty)

/-- Tokenizing the data rows (the C parser of `read_csv`): a row wider than
the established table width aborts with a tokenizing error; a narrower row
is padded at the end with missing cells; when the table width exceeds the
header width `n` the leftmost extra fields of every row are consumed as
the row index and dropped. -/
def parseRows (width n : Nat) : List (List Char) → Except String (List (List Cell))
  | [] => .ok []
  | l :: ls =>
    if width < (splitChar ',' l).length then
      .error "Error tokenizing data. C error: saw more fields than expected"
    else
      match parseRows width n ls with
      | .error e => .error e
      | .ok rs =>
        .ok ((((splitChar ',' l).map parseField ++
          List.replicate (width - (splitChar ',' l).length) none).drop (width - n)) :: rs)

/-- The width of the tokenized table: the header width, or the width of
the first data row when the latter is larger (extra leading columns of
such a table become the row index, per the pandas index-inference rule). -/
def raggedWidth (hl : List Char) (dls : List (List Char)) : Nat :=
  max (splitChar ',' hl).length
    (match dls with
     | [] => (splitChar ',' hl).length
     | dl :: _ => (splitChar ',' dl).length)

/-- Model of `pd.read_csv(io.StringIO(csv_content))` with default options:
comma separator, first nonblank line as header, blank lines skipped,
default NA markers, no quoting in the modelled fragment.  The row index
produced by index inference is dropped — the program never uses it. -/
def parseCSVChars (doc : List Char) : Except String Dataset :=
  match csvLines doc with
  | [] => .error "No columns to parse from file"
  | hl :: dls =>
    match parseRows (raggedWidth hl dls) (splitChar ',' hl).length dls with
    | .error e => .error e
    | .ok rs => .ok ⟨splitChar ',' hl, rs⟩

/-- `df.columns` paired with the column values, in column order. -/
def Dataset.columnsOf (d : Dataset) : List (Field × List Cell) :=
  d.header.enum.map (fun p => (p.2, d.rows.map (fun r => r.getD p.1 none)))

/-- The analysis result dictionary (the non-error return value of
`analyze_csv_data`, lines 81–85). -/
structure Report where
  num_rows : Nat
  num_cols : Nat
  missing_values_count : Nat
  missing_percentage : ℚ
  column_info : List (Field × ColInfo)
  summary : String
  dataframe : Dataset
deriving DecidableEq

/-- Round to the nearest integer, ties to even (the rounding of Python's
float formatting). -/
def roundHalfEven (q : ℚ) : ℤ :=
  let f := q.floor
  let r := q - f
  if r < 1 / 2 then f
  else if 1 / 2 < r then f + 1
  else if f % 2 = 0 then f else f + 1

/-- Zero-padded two-digit numeral. -/
def twoDigits (m : Nat) : String :=
  (if m < 10 then "0" else "") ++ toString m

/-- Python's fixed-point formatting of a float to two decimals, on the
exact rational idealisation. -/
def fmt2 (q : ℚ) : String :=
  let z := roundHalfEven (q * 100)
  let sgnStr := if z < 0 then "-" else ""
  let m := z.natAbs
  sgnStr ++ toString (m / 100) ++ "." ++ twoDigits (m % 100)

/-- Two-decimal rendering of the square root of a rational (the reported
standard deviation is the square root of the stored sample variance):
`round(100·√v)` rendered as a fixed-point numeral. -/
def fmt2Sqrt (v : ℚ) : String :=
  let m := (Nat.sqrt ((v * 40000).floor.toNat) + 1) / 2
  toString (m / 100) ++ "." ++ twoDigits (m % 100)

/-- The two-decimal rendering of the standard deviation: `nan` when the
variance is undefined. -/
def fmtStd : Option ℚ → String
  | none => "nan"
  | some v => fmt2Sqrt v

/-- One bullet of the summary text (lines 74–79). -/
def renderColInfo (nm : Field) : ColInfo → String
  | .numeric i =>
      "- **" ++ String.mk nm ++ "**: Numeric (Min: " ++ fmt2 i.min ++ ", Max: " ++
      fmt2 i.max ++ ", Mean: " ++ fmt2 i.mean ++ ", Median: " ++ fmt2 i.median ++
      ", Std Dev: " ++ fmtStd i.std2 ++ ", Non-null: " ++ toString i.count ++
      "). Missing: " ++ toString i.missing_count ++ " values.\n"
  | .categorical i =>
      "- **" ++ String.mk nm ++ "**: Categorical (" ++ toString i.unique_values ++
      " unique values). Missing: " ++ toString i.missing_count ++ " values.\n"

/-- The analysis of a parsed `DataFrame` (lines 30–85): shape, missing-cell
totals, per-column classification and the rendered summary text. -/
def mkReport (d : Dataset) : Report :=
  let numRows := d.rows.length
  let numCols := d.header.length
  let cols := d.columnsOf
  let missingTotal := (cols.map (fun c => missingCount c.2)).sum
  let totalCells := numRows * numCols
  let pct : ℚ := if 0 < totalCells then (missingTotal : ℚ) / (totalCells : ℚ) * 100 else 0
  let info := cols.map (fun c => (c.1, classify c.2))
  let summaryText :=
    "The dataset contains " ++ toString numRows ++ " rows and " ++ toString numCols ++
    " columns.\n" ++
    "Total missing values across the dataset: " ++ toString missingTotal ++ " (" ++
    fmt2 pct ++ "% of all cells).\n\n" ++ "Column Details:\n" ++
    String.join (info.map (fun c => renderColInfo c.1 c.2))
  { num_rows := numRows, num_cols := numCols, missing_values_count := missingTotal,
    missing_percentage := pct, column_info := info, summary := summaryText,
    dataframe := d }

/-- `analyze_csv_data` (lines 14–85): parse, then analyze; a parse failure
returns only the error message, no partial result. -/
def analyze_csv_data (s : String) : Except String Report :=
  match parseCSVChars s.data with
  | .error e => .error ("Failed to parse CSV: " ++ e)
  | .ok d => .ok (mkReport d)

/-- A cell written back to text: missing becomes the empty token
(`to_csv` writes `NaN` as the empty string). -/
def cellField : Cell → Field
  | none => []
  | some v => v

/-- One row as a line of comma-separated fields. -/
def rowLine (r : List Cell) : List Char := joinSep ',' (r.map cellField)

/-- `df.to_csv(index=False)` (line 177) in the modelled no-quote fragment:
the header line then one line per row, each newline-terminated. -/
def toCsv (d : Dataset) : List Char :=
  linesToDoc (joinSep ',' d.header :: d.rows.map rowLine)

/-- The spec's reference definition of the sample variance (denominator
`n − 1`, undefined for fewer than two values), stated through the
sum-of-squares identity; to be compared with the program's `sampleVar`. -/
def specSampleVar (xs : List ℚ) : Option ℚ :=
  if xs.length ≤ 1 then none
  else some (((xs.map (fun x => x ^ 2)).sum - xs.sum ^ 2 / (xs.length : ℚ)) /
    ((xs.length : ℚ) - 1))

/-- Well-formedness of a parsed cell: a present value contains no comma
and no newline and is not an NA marker, so it re-reads as itself. -/
def CellWF : Cell → Prop
  | none => True
  | some v => ',' ∉ v ∧ '\n' ∉ v ∧ v ∉ naValues

/-- Evaluation helper: the report of an input, with a dummy for inputs
that do not parse. -/
def runReport (s : String) : Report :=
  match analyze_csv_data s with
  | .ok r => r
  | .error _ => mkReport ⟨[], []⟩

/-- Evaluation helper: the dataset of an input, with a dummy for inputs
that do not parse. -/
def runParse (s : String) : Dataset :=
  match parseCSVChars s.data with
  | .ok d => d
  | .error _ => ⟨[], []⟩

/-! ### Toolkit lemmas about splitting and joining -/

theorem splitChar_ne_nil (sep : Char) (l : List Char) : splitChar sep l ≠ [] := by
  cases l with
  | nil => simp [splitChar]
  | cons c cs =>
    simp only [splitChar]
    cases h : splitChar sep cs with
    | nil => simp
    | cons f r =>
      by_cases hc : c = sep <;> simp [hc]

theorem not_mem_of_mem_splitChar {sep : Char} :
    ∀ {l f : List Char}, f ∈ splitChar sep l → sep ∉ f := by
  intro l
  induction l with
  | nil =>
    intro f hf
    simp [splitChar] at hf
    simp [hf]
  | cons c cs ih =>
    intro f hf
    rcases hs : splitChar sep cs with _ | ⟨f0, r0⟩
    · exact absurd hs (splitChar_ne_nil sep cs)
    · simp only [splitChar, hs] at hf
      by_cases hc : c = sep
      · rw [if_pos hc] at hf
        rcases List.mem_cons.1 hf with rfl | hf
        · simp
        · exact ih (hs ▸ hf)
      · rw [if_neg hc] at hf
        rcases List.mem_cons.1 hf with rfl | hf
        · intro hmem
          rcases List.mem_cons.1 hmem with rfl | hmem
          · exact hc rfl
          · exact ih (hs ▸ List.mem_cons_self f0 r0) hmem
        · exact ih (hs ▸ List.mem_cons_of_mem f0 hf)

/-- Splitting after prepending a separator-free field and a separator
peels off exactly that field. -/
theorem splitChar_append_cons {sep : Char} {f : List Char} (hf : sep ∉ f)
    (t : List Char) : splitChar sep (f ++ sep :: t) = f :: splitChar sep t := by
  induction f with
  | nil =>
    show splitChar sep (sep :: t) = [] :: splitChar sep t
    rcases hs : splitChar sep t with _ | ⟨f0, r0⟩
    · exact absurd hs (splitChar_ne_nil sep t)
    · simp [splitChar, hs]
  | cons c cs ih =>
    have hc : c ≠ sep := fun h => hf (h ▸ List.mem_cons_self c cs)
    have hcs : sep ∉ cs := fun h => hf (List.mem_cons_of_mem c h)
    show splitChar sep (c :: (cs ++ sep :: t)) = (c :: cs) :: splitChar sep t
    rcases hs : splitChar sep t with _ | ⟨f0, r0⟩
    · exact absurd hs (splitChar_ne_nil sep t)
    · simp only [splitChar, ih hcs, hs, if_neg hc]

/-- Splitting a separator-free field changes nothing. -/
theorem splitChar_of_not_mem {sep : Char} {f : List Char} (hf : sep ∉ f) :
    splitChar sep f = [f] := by
  induction f with
  | nil => rfl
  | cons c cs ih =>
    have hc : c ≠ sep := fun h => hf (h ▸ List.mem_cons_self c cs)
    have hcs : sep ∉ cs := fun h => hf (List.mem_cons_of_mem c h)
    simp only [splitChar, ih hcs, if_neg hc]

/-- `splitChar` is a left inverse of `joinSep` on nonempty lists of
separator-free fields. -/
theorem splitChar_joinSep {sep : Char} :
    ∀ {fs : List (List Char)}, fs ≠ [] → (∀ f ∈ fs, sep ∉ f) →
      splitChar sep (joinSep sep fs) = fs
  | [], h, _ => absurd rfl h
  | [f], _, hf => by
      show splitChar sep f = [f]
      exact splitChar_of_not_mem (hf f (by simp))
  | f :: g :: r, _, hf => by
      show splitChar sep (f ++ sep :: joinSep sep (g :: r)) = f :: g :: r
      rw [splitChar_append_cons (hf f (by simp)),
        @splitChar_joinSep sep (g :: r) (by simp)
          (fun x hx => hf x (List.mem_cons_of_mem f hx))]

/-- `joinSep` is a left inverse of `splitChar`. -/
theorem joinSep_splitChar (sep : Char) (l : List Char) :
    joinSep sep (splitChar sep l) = l := by
  induction l with
  | nil => rfl
  | cons c cs ih =>
    rcases hs : splitChar sep cs with _ | ⟨f0, r0⟩
    · exact absurd hs (splitChar_ne_nil sep cs)
    · rw [hs] at ih
      by_cases hc : c = sep
      · show joinSep sep (splitChar sep (c :: cs)) = c :: cs
        simp only [splitChar, hs, if_pos hc]
        show sep :: joinSep sep (f0 :: r0) = c :: cs
        rw [ih, hc]
      · show joinSep sep (splitChar sep (c :: cs)) = c :: cs
        simp only [splitChar, hs, if_neg hc]
        cases r0 with
        | nil =>
          show c :: f0 = c :: cs
          have hf : f0 = cs := ih
          rw [hf]
        | cons g r' =>
          show c :: joinSep sep (f0 :: g :: r') = c :: cs
          rw [ih]

/-- Splitting a newline-terminated document recovers the lines plus one
trailing empty field. -/
theorem splitChar_linesToDoc {ls : List (List Char)}
    (h : ∀ l ∈ ls, '\n' ∉ l) :
    splitChar '\n' (linesToDoc ls) = ls ++ [[]] := by
  induction ls with
  | nil => simp [linesToDoc, splitChar]
  | cons l rest ih =>
    have hl : '\n' ∉ l := h l (by simp)
    have hrest : ∀ x ∈ rest, '\n' ∉ x := fun x hx => h x (List.mem_cons_of_mem l hx)
    show splitChar '\n' (l ++ '\n' :: linesToDoc rest) = (l :: rest) ++ [[]]
    rw [splitChar_append_cons hl, ih hrest]
    rfl

/-! ### The classification denominator -/

/-- The classification denominator `len(col_data) − col_missing_count`
counts exactly the non-missing values. -/
theorem denom_eq (vals : List Cell) :
    vals.length - missingCount vals = (vals.filterMap id).length := by
  induction vals with
  | nil => rfl
  | cons c cs ih =>
    have hle : missingCount cs ≤ cs.length := List.countP_le_length _
    cases c with
    | none =>
      have h1 : missingCount (none :: cs) = missingCount cs + 1 := by
        simp [missingCount, List.countP_cons]
      simp only [List.length_cons, h1, List.filterMap_cons, Nat.succ_sub_succ]
      exact ih
    | some v =>
      have h1 : missingCount (some v :: cs) = missingCount cs := by
        simp [missingCount, List.countP_cons]
      simp only [List.length_cons, h1]
      rw [Nat.succ_sub hle, ih]
      simp

/-! ### Claim C1 -/

/-- C1. For every column with at least one non-missing value, `classify`
returns the numeric kind if and only if the fraction of non-missing values
that successfully parse as a number is strictly greater than 0.8; in
particular at a fraction of exactly 4/5 it returns categorical. -/
theorem classify_numeric_iff (vals : List Cell)
    (_h : 0 < (vals.filterMap id).length) :
    (classify vals).isNumeric = true ↔
      (0.8 : ℚ) < ((numericColData vals).length : ℚ) /
        (((vals.filterMap id).length : ℕ) : ℚ) := by
  have hd : vals.length - missingCount vals = (vals.filterMap id).length := denom_eq vals
  rw [classify, hd]
  split_ifs with hc
  · simpa [ColInfo.isNumeric] using hc.2
  · simp only [ColInfo.isNumeric, Bool.false_eq_true, false_iff]
    intro hlt
    apply hc
    refine ⟨?_, hlt⟩
    intro hnil
    rw [hnil] at hlt
    norm_num at hlt

/-- Witness for `classify_numeric_iff`: a concrete column with 4 of its 5
non-missing values numeric (fraction exactly 4/5) and its categorical
verdict. -/
theorem classify_numeric_iff_witness :
    ((classify [some ['1'], some ['2'], some ['3'], some ['4'], some ['x']]).isNumeric = true ↔
      (0.8 : ℚ) <
        ((numericColData [some ['1'], some ['2'], some ['3'], some ['4'], some ['x']]).length : ℚ) /
        ((([some ['1'], some ['2'], some ['3'], some ['4'],
            some ['x']] : List Cell).filterMap id).length : ℚ)) ∧
    (classify [some ['1'], some ['2'], some ['3'], some ['4'], some ['x']]).isNumeric = false :=
  ⟨classify_numeric_iff _ (by decide), by with_unfolding_all decide⟩

/-! ### Claim C2 -/

/-- C2. A column whose values are all missing is classified categorical
with `unique_count = 0` and `missing_count` the column length; and the
numeric-fraction test can only decide the classification with a positive
denominator, because the parsed numeric values are nonempty only when some
value is non-missing. -/
theorem classify_all_missing (vals : List Cell) :
    ((∀ c ∈ vals, c = none) →
      classify vals = .categorical ⟨0, [], vals.length⟩) ∧
    (numericColData vals ≠ [] → 0 < vals.length - missingCount vals) := by
  constructor
  · intro hall
    have hfm : vals.filterMap id = [] := by
      rw [List.filterMap_eq_nil_iff]
      intro a ha
      rw [hall a ha]
      rfl
    have hnum : numericColData vals = [] := by
      rw [numericColData, hfm]
      rfl
    have hmiss : missingCount vals = vals.length := by
      rw [missingCount, List.countP_eq_length]
      intro a ha
      rw [hall a ha]
      rfl
    have hvc : valueCounts vals = [] := by
      simp [valueCounts, hfm]
    simp [classify, hnum, hvc, hmiss]
  · intro hne
    rw [denom_eq]
    rcases h : vals.filterMap id with _ | ⟨x, xs⟩
    · exact absurd (by rw [numericColData, h]; rfl) hne
    · simp

/-- Witness for `classify_all_missing`: a three-cell all-missing column and
a singleton numeric column. -/
theorem classify_all_missing_witness :
    classify ([none, none, none] : List Cell) = .categorical ⟨0, [], 3⟩ ∧
      0 < ([some ['1']] : List Cell).length - missingCount [some ['1']] :=
  ⟨(classify_all_missing [none, none, none]).1 (by decide),
   (classify_all_missing [some ['1']]).2 (by with_unfolding_all decide)⟩

/-! ### Claim C3 -/

/-- C3. The analysis is deterministic: two runs on the same input string
agree on the row count, the missing percentage, the per-column
classification and statistics, and the summary text (`analyze_csv_data`
is a pure function: no input/output, no randomness). -/
theorem analyze_deterministic (s : String) (r₁ r₂ : Report)
    (h₁ : analyze_csv_data s = Except.ok r₁) (h₂ : analyze_csv_data s = Except.ok r₂) :
    r₁.num_rows = r₂.num_rows ∧ r₁.missing_percentage = r₂.missing_percentage ∧
      r₁.column_info = r₂.column_info ∧ r₁.summary = r₂.summary := by
  have h : Except.ok (ε := String) r₁ = Except.ok r₂ := h₁.symm.trans h₂
  have he : r₁ = r₂ := by injection h
  subst he
  exact ⟨rfl, rfl, rfl, rfl⟩

/-- Witness for `analyze_deterministic` at the input `"a\n1\n"`. -/
theorem analyze_deterministic_witness :
    (runReport "a\n1\n").num_rows = (runReport "a\n1\n").num_rows ∧
      (runReport "a\n1\n").missing_percentage = (runReport "a\n1\n").missing_percentage ∧
      (runReport "a\n1\n").column_info = (runReport "a\n1\n").column_info ∧
      (runReport "a\n1\n").summary = (runReport "a\n1\n").summary :=
  analyze_deterministic "a\n1\n" (runReport "a\n1\n") (runReport "a\n1\n")
    (by with_unfolding_all rfl) (by with_unfolding_all rfl)

/-! ### Claim C4 -/

/-- C4. The missing percentage equals `missing / (rows × cols) × 100` when
the dataset has at least one cell, and equals 0 when the row count or the
column count is zero (no division by zero occurs). -/
theorem missing_percentage_eq (d : Dataset) :
    (0 < (mkReport d).num_rows * (mkReport d).num_cols →
      (mkReport d).missing_percentage = ((mkReport d).missing_values_count : ℚ) /
        (((mkReport d).num_rows * (mkReport d).num_cols : ℕ) : ℚ) * 100) ∧
    (((mkReport d).num_rows = 0 ∨ (mkReport d).num_cols = 0) →
      (mkReport d).missing_percentage = 0) := by
  constructor
  · intro h
    simp only [mkReport] at h ⊢
    rw [if_pos h]
  · intro h
    simp only [mkReport] at h ⊢
    rw [if_neg]
    intro hpos
    rcases h with h | h <;> rw [h] at hpos <;> simp at hpos

/-- Witness for `missing_percentage_eq`: a one-cell dataset and a
zero-row dataset. -/
theorem missing_percentage_eq_witness :
    ((mkReport ⟨[['a']], [[some ['1']]]⟩).missing_percentage =
        ((mkReport ⟨[['a']], [[some ['1']]]⟩).missing_values_count : ℚ) /
        (((mkReport ⟨[['a']], [[some ['1']]]⟩).num_rows *
          (mkReport ⟨[['a']], [[some ['1']]]⟩).num_cols : ℕ) : ℚ) * 100) ∧
      (mkReport ⟨[['a']], ([] : List (List Cell))⟩).missing_percentage = 0 :=
  ⟨(missing_percentage_eq _).1 (by decide),
   (missing_percentage_eq _).2 (Or.inl rfl)⟩

/-! ### Claim C5 -/

/-- Sum of squared deviations about an arbitrary point, expanded. -/
theorem sum_sq_dev (xs : List ℚ) (m : ℚ) :
    (xs.map (fun x => (x - m) ^ 2)).sum =
      (xs.map (fun x => x ^ 2)).sum - 2 * m * xs.sum + (xs.length : ℚ) * m ^ 2 := by
  induction xs with
  | nil => simp
  | cons x xs ih =>
    simp only [List.map_cons, List.sum_cons, ih, List.length_cons]
    push_cast
    ring

/-- The program's mean-squared-deviation form of the sample variance
agrees with the spec's sum-of-squares reference form. -/
theorem sampleVar_eq_specSampleVar (xs : List ℚ) : sampleVar xs = specSampleVar xs := by
  rw [sampleVar, specSampleVar]
  split_ifs with hlen
  · rfl
  · have hn : (xs.length : ℚ) ≠ 0 := Nat.cast_ne_zero.mpr (by omega)
    congr 1
    congr 1
    rw [sum_sq_dev xs (listMean xs), listMean]
    field_simp
    ring

/-- C5. For every column classified numeric, the stored `std2` (whose
square root the program reports as the standard deviation) is the
reference sample variance with denominator `n − 1`, computed over exactly
the successfully parsed numeric values; with a single parsed value it is
the undefined marker (`NaN`), not an error. -/
theorem classify_numeric_std (vals : List Cell) (i : NumericInfo)
    (h : classify vals = .numeric i) :
    i.std2 = specSampleVar (numericColData vals) ∧ (i.count = 1 → i.std2 = none) := by
  rw [classify] at h
  split at h <;> cases h
  refine ⟨sampleVar_eq_specSampleVar _, ?_⟩
  intro hcount
  have hc2 : (numericColData vals).length = 1 := hcount
  show sampleVar (numericColData vals) = none
  rw [sampleVar, if_pos (by omega)]

/-- Witness for `classify_numeric_std`: a column with a single parsed
numeric value, whose variance is the undefined marker. -/
theorem classify_numeric_std_witness :
    NumericInfo.std2 ⟨1, 1, 1, 1, none, 1, 0⟩ =
        specSampleVar (numericColData [some ['1']]) ∧
      NumericInfo.std2 ⟨1, 1, 1, 1, none, 1, 0⟩ = none := by
  have h := classify_numeric_std [some ['1']] ⟨1, 1, 1, 1, none, 1, 0⟩
    (by with_unfolding_all decide)
  exact ⟨h.1, h.2 (by decide)⟩

/-! ### Claim C6 -/

/-- C6. For every column classified categorical, `value_counts` is an
exact-match frequency map over the non-missing raw values: its keys are
distinct and are exactly the non-missing values of the column (no
normalisation), each count is the number of exact occurrences of its key,
`unique_count` is the number of keys, and the counts sum to the column
length minus `missing_count`. -/
theorem classify_categorical_counts (vals : List Cell) (i : CatInfo)
    (h : classify vals = .categorical i) :
    i.unique_values = i.counts.length ∧
      (i.counts.map Prod.fst).Nodup ∧
      (∀ p ∈ i.counts, p.2 = (vals.filterMap id).count p.1) ∧
      (∀ v : Field, v ∈ i.counts.map Prod.fst ↔ v ∈ vals.filterMap id) ∧
      (i.counts.map Prod.snd).sum = vals.length - i.missing_count := by
  rw [classify] at h
  split at h <;> cases h
  have hkeys : (valueCounts vals).map Prod.fst = (vals.filterMap id).dedup := by
    simp only [valueCounts, List.map_map]
    have hid : (Prod.fst ∘ fun v : Field => (v, (vals.filterMap id).count v)) = id := rfl
    rw [hid, List.map_id]
  refine ⟨rfl, ?_, ?_, ?_, ?_⟩
  · show ((valueCounts vals).map Prod.fst).Nodup
    rw [hkeys]
    exact List.nodup_dedup _
  · intro p hp
    show p.2 = (vals.filterMap id).count p.1
    have hp' : p ∈ (vals.filterMap id).dedup.map
        (fun v => (v, (vals.filterMap id).count v)) := hp
    rcases List.mem_map.1 hp' with ⟨v, _, rfl⟩
    rfl
  · intro v
    show v ∈ (valueCounts vals).map Prod.fst ↔ _
    rw [hkeys]
    exact List.mem_dedup
  · show ((valueCounts vals).map Prod.snd).sum = vals.length - missingCount vals
    have hsnd : (valueCounts vals).map Prod.snd =
        (vals.filterMap id).dedup.map (fun v => (vals.filterMap id).count v) := by
      simp [valueCounts, List.map_map]
    rw [hsnd, denom_eq]
    have hinst : (List.instBEq : BEq Field) = instBEqOfDecidableEq :=
      lawful_beq_subsingleton _ _
    simp only [hinst]
    exact List.sum_map_count_dedup_eq_length _

/-- Witness for `classify_categorical_counts` at a concrete four-cell
column with one missing value and a repeated value. -/
theorem classify_categorical_counts_witness :
    (2 = [(['y'], (1 : Nat)), (['x'], 2)].length) ∧
      ([(['y'], (1 : Nat)), (['x'], 2)].map Prod.fst).Nodup ∧
      ((2 : Nat) =
        (([some ['x'], some ['y'], some ['x'], none] : List Cell).filterMap id).count ['x']) ∧
      (['y'] ∈ [(['y'], (1 : Nat)), (['x'], 2)].map Prod.fst ↔
        ['y'] ∈ ([some ['x'], some ['y'], some ['x'], none] : List Cell).filterMap id) ∧
      ([(['y'], (1 : Nat)), (['x'], 2)].map Prod.snd).sum = 4 - 1 := by
  have h := classify_categorical_counts [some ['x'], some ['y'], some ['x'], none]
    ⟨2, [(['y'], 1), (['x'], 2)], 1⟩ (by with_unfolding_all decide)
  exact ⟨h.1, h.2.1, h.2.2.1 (['x'], 2) (by decide), h.2.2.2.1 ['y'], h.2.2.2.2⟩

/-! ### Claim C7 -/

/-- C7. When the input cannot be parsed as a delimited table the analysis
returns only the parse-error message — no partial report, no column
profiles, no dataset (the result carries nothing but the reason). -/
theorem analyze_error_on_parse_failure (s e : String)
    (h : parseCSVChars s.data = .error e) :
    analyze_csv_data s = .error ("Failed to parse CSV: " ++ e) := by
  rw [analyze_csv_data, h]

/-- Witness for `analyze_error_on_parse_failure`: the empty input. -/
theorem analyze_error_on_parse_failure_witness :
    analyze_csv_data "" = .error ("Failed to parse CSV: " ++ "No columns to parse from file") :=
  analyze_error_on_parse_failure "" "No columns to parse from file" (by with_unfolding_all rfl)

/-! ### Claim C9 -/

/-- NA tokens read as the missing cell. -/
theorem parseField_na {t : Field} (ht : t ∈ naValues) : parseField t = none :=
  if_pos ht

/-- Reading a token list drops exactly the NA tokens. -/
theorem filterMap_parseField (ts : List Field) :
    ts.filterMap parseField = ts.filter (fun u => !decide (u ∈ naValues)) := by
  induction ts with
  | nil => rfl
  | cons t ts ih =>
    by_cases ht : t ∈ naValues
    · simp [List.filterMap_cons, List.filter_cons, parseField, ht, ih]
    · simp [List.filterMap_cons, List.filter_cons, parseField, ht, ih]

/-- C9. NA-marker tokens (the pandas default set: the empty string, `NA`,
`N/A`, `null`, `NaN`, …) become the missing sentinel: such a cell counts
toward `missing_count` (the missing count is exactly the number of NA
tokens), it is excluded from the classification denominator (which counts
exactly the non-NA tokens, so NA tokens never land in the non-numeric
bucket of the 80% test), and it never appears as a key of a categorical
column's `value_counts`. -/
theorem na_tokens_are_missing (ts : List Field) (t : Field)
    (ht : t ∈ naValues) (_hmem : t ∈ ts) :
    parseField t = none ∧
      missingCount (ts.map parseField) = ts.countP (fun u => decide (u ∈ naValues)) ∧
      ((ts.map parseField).filterMap id).length =
        ts.countP (fun u => !decide (u ∈ naValues)) ∧
      ∀ i, classify (ts.map parseField) = .categorical i →
        ∀ k ∈ i.counts.map Prod.fst, k ∉ naValues := by
  have hfm : (ts.map parseField).filterMap id = ts.filterMap parseField := by
    rw [List.filterMap_map]
    rfl
  refine ⟨parseField_na ht, ?_, ?_, ?_⟩
  · rw [missingCount, List.countP_map]
    apply List.countP_congr
    intro a _
    by_cases h : a ∈ naValues <;> simp [parseField, h]
  · rw [hfm, filterMap_parseField, ← List.countP_eq_length_filter]
  · intro i hclass k hk
    have hcounts := classify_categorical_counts _ i hclass
    have hkmem : k ∈ (ts.map parseField).filterMap id := (hcounts.2.2.2.1 k).1 hk
    rw [hfm, filterMap_parseField] at hkmem
    have := (List.mem_filter.1 hkmem).2
    simpa using this

/-- Witness for `na_tokens_are_missing` at the token list
`["1", "NA", "x"]`. -/
theorem na_tokens_are_missing_witness :
    parseField ['N', 'A'] = none ∧
      missingCount ([['1'], ['N', 'A'], ['x']].map parseField) =
        [['1'], ['N', 'A'], ['x']].countP (fun u => decide (u ∈ naValues)) ∧
      (([['1'], ['N', 'A'], ['x']].map parseField).filterMap id).length =
        [['1'], ['N', 'A'], ['x']].countP (fun u => !decide (u ∈ naValues)) ∧
      ['x'] ∉ naValues := by
  have h := na_tokens_are_missing [['1'], ['N', 'A'], ['x']] ['N', 'A']
    (by decide) (by decide)
  refine ⟨h.1, h.2.1, h.2.2.1, ?_⟩
  exact h.2.2.2 ⟨2, [(['1'], 1), (['x'], 1)], 1⟩ (by with_unfolding_all decide)
    ['x'] (by decide)

/-! ### Claim C10 -/

/-- Tokenizing rows none of which exceeds the table width succeeds, and
pads every narrower row at the end with missing cells (index columns, when
present, dropped). -/
theorem parseRows_ok_of_le (width n : Nat) (ls : List (List Char))
    (h : ∀ l ∈ ls, (splitChar ',' l).length ≤ width) :
    parseRows width n ls = .ok (ls.map (fun l =>
      ((splitChar ',' l).map parseField ++
        List.replicate (width - (splitChar ',' l).length) none).drop (width - n))) := by
  induction ls with
  | nil => rfl
  | cons l ls ih =>
    have h1 : ¬ width < (splitChar ',' l).length := Nat.not_lt.mpr (h l (by simp))
    rw [parseRows, if_neg h1, ih (fun x hx => h x (List.mem_cons_of_mem l hx))]
    simp

/-- Tokenizing rows one of which exceeds the table width fails. -/
theorem parseRows_error_of_wide (width n : Nat) (ls : List (List Char))
    (h : ∃ l ∈ ls, width < (splitChar ',' l).length) :
    ∃ e, parseRows width n ls = .error e := by
  induction ls with
  | nil =>
    rcases h with ⟨l, hl, _⟩
    cases hl
  | cons l ls ih =>
    by_cases h1 : width < (splitChar ',' l).length
    · exact ⟨_, by rw [parseRows, if_pos h1]⟩
    · rcases h with ⟨x, hx, hwide⟩
      rcases List.mem_cons.1 hx with rfl | hx'
      · exact absurd hwide h1
      · rcases ih ⟨x, hx', hwide⟩ with ⟨e, he⟩
        exact ⟨e, by rw [parseRows, if_neg h1, he]⟩

/-- C10 counterexample: in `"a\n1,2\n"` the data row has 2 fields against
a 1-field header, yet parsing succeeds — the extra leading column is
consumed as the row index — so a too-wide data row does not always give a
`ParseError`. -/
theorem ragged_row_cex :
    (splitChar ',' ("1,2").data).length = 2 ∧ (splitChar ',' ("a").data).length = 1 ∧
      parseCSVChars ("a\n1,2\n").data = .ok ⟨[['a']], [[some ['2']]]⟩ ∧
      (analyze_csv_data "a\n1,2\n").isOk = true := by
  refine ⟨by decide, by decide, by with_unfolding_all rfl, by with_unfolding_all rfl⟩

/-- C10 (amended). A data row with fewer fields than the table width is
accepted, its absent trailing fields filled with the missing sentinel; a
data row with more fields than the table width makes the whole parse
fail; the table width is the header width, except that when the first
data row is wider than the header the width is the first data row's width
and the extra leading fields of every row are consumed as the row index
rather than reported as an error. -/
theorem ragged_row_policy (hl : List Char) (dls : List (List Char)) (doc : List Char)
    (hdoc : csvLines doc = hl :: dls) :
    ((∃ l ∈ dls, raggedWidth hl dls < (splitChar ',' l).length) →
        ∃ e, parseCSVChars doc = .error e) ∧
    ((∀ l ∈ dls, (splitChar ',' l).length ≤ raggedWidth hl dls) →
        parseCSVChars doc = .ok ⟨splitChar ',' hl, dls.map (fun l =>
          ((splitChar ',' l).map parseField ++
            List.replicate (raggedWidth hl dls - (splitChar ',' l).length) none).drop
            (raggedWidth hl dls - (splitChar ',' hl).length))⟩) := by
  constructor
  · intro h
    rcases parseRows_error_of_wide (raggedWidth hl dls) (splitChar ',' hl).length dls h
      with ⟨e, he⟩
    refine ⟨e, ?_⟩
    rw [parseCSVChars, hdoc]
    simp only [he]
  · intro h
    rw [parseCSVChars, hdoc]
    simp only [parseRows_ok_of_le _ _ dls h]

/-- Witness for `ragged_row_policy`: a too-wide later row aborts the
parse; a one-field row under a two-field header is padded with a missing
cell. -/
theorem ragged_row_policy_witness :
    (parseCSVChars ("a,b\n1,2\n3,4,5\n").data).isOk = false ∧
      parseCSVChars ("a,b\n1\n").data = .ok ⟨[['a'], ['b']], [[some ['1'], none]]⟩ := by
  constructor
  · obtain ⟨e, he⟩ := (ragged_row_policy ("a,b").data [("1,2").data, ("3,4,5").data]
      ("a,b\n1,2\n3,4,5\n").data (by with_unfolding_all rfl)).1 (by decide)
    rw [he]
    rfl
  · have h := (ragged_row_policy ("a,b").data [("1").data]
      ("a,b\n1\n").data (by with_unfolding_all rfl)).2 (by decide)
    rw [h]
    with_unfolding_all rfl

/-! ### Claim C8 -/

/-- Every character of a field produced by `splitChar` occurs in the split
line. -/
theorem mem_of_mem_splitChar {sep : Char} :
    ∀ {l f : List Char}, f ∈ splitChar sep l → ∀ {c}, c ∈ f → c ∈ l := by
  intro l
  induction l with
  | nil =>
    intro f hf c hc
    simp [splitChar] at hf
    subst hf
    simp at hc
  | cons x cs ih =>
    intro f hf c hc
    rcases hs : splitChar sep cs with _ | ⟨f0, r0⟩
    · exact absurd hs (splitChar_ne_nil sep cs)
    · simp only [splitChar, hs] at hf
      by_cases hx : x = sep
      · rw [if_pos hx] at hf
        rcases List.mem_cons.1 hf with rfl | hf
        · simp at hc
        · exact List.mem_cons_of_mem _ (ih (hs ▸ hf) hc)
      · rw [if_neg hx] at hf
        rcases List.mem_cons.1 hf with rfl | hf
        · rcases List.mem_cons.1 hc with rfl | hc
          · simp
          · exact List.mem_cons_of_mem _ (ih (hs ▸ List.mem_cons_self f0 r0) hc)
        · exact List.mem_cons_of_mem _ (ih (hs ▸ List.mem_cons_of_mem f0 hf) hc)

/-- Every character of a joined line is a separator or a field character. -/
theorem mem_joinSep {sep : Char} :
    ∀ {fs : List (List Char)} {c : Char}, c ∈ joinSep sep fs →
      c = sep ∨ ∃ f ∈ fs, c ∈ f
  | [], c, h => by simp [joinSep] at h
  | [f], _, h => Or.inr ⟨f, by simp, h⟩
  | f :: g :: r, c, h => by
      rcases List.mem_append.1 h with h | h
      · exact Or.inr ⟨f, by simp, h⟩
      · rcases List.mem_cons.1 h with rfl | h
        · exact Or.inl rfl
        · rcases @mem_joinSep sep (g :: r) c h with h | ⟨x, hx, hcx⟩
          · exact Or.inl h
          · exact Or.inr ⟨x, List.mem_cons_of_mem f hx, hcx⟩

/-- A well-formed cell written to text re-reads as itself. -/
theorem parseField_cellField {c : Cell} (h : CellWF c) :
    parseField (cellField c) = c := by
  cases c with
  | none =>
    show parseField [] = none
    rw [parseField, if_pos]
    show ([] : Field) ∈ naValues
    decide
  | some v =>
    rcases h with ⟨-, -, hna⟩
    show parseField v = some v
    rw [parseField, if_neg hna]

/-- A well-formed row written to fields re-reads cell by cell. -/
theorem map_parseField_cellField :
    ∀ (r : List Cell), (∀ c ∈ r, CellWF c) → (r.map cellField).map parseField = r := by
  intro r
  induction r with
  | nil => intro _; rfl
  | cons c r ih =>
    intro h
    simp only [List.map_cons]
    rw [parseField_cellField (h c (by simp)),
      ih (fun x hx => h x (List.mem_cons_of_mem c hx))]

/-- Splitting a serialised row recovers its fields. -/
theorem splitChar_rowLine {r : List Cell} (hr : r ≠ [])
    (hWF : ∀ c ∈ r, CellWF c) :
    splitChar ',' (rowLine r) = r.map cellField := by
  apply splitChar_joinSep
  · simpa using hr
  · intro f hf
    rcases List.mem_map.1 hf with ⟨c, hc, rfl⟩
    cases c with
    | none => simp [cellField]
    | some v => exact (hWF _ hc).1

/-- A serialised well-formed row contains no newline. -/
theorem newline_not_mem_rowLine {r : List Cell} (hWF : ∀ c ∈ r, CellWF c) :
    '\n' ∉ rowLine r := by
  intro hmem
  rcases mem_joinSep hmem with h | ⟨f, hf, hcf⟩
  · exact absurd h (by decide)
  · rcases List.mem_map.1 hf with ⟨c, hc, rfl⟩
    cases c with
    | none => simp [cellField] at hcf
    | some v => exact (hWF _ hc).2.1 hcf

/-- A nonempty line satisfies the blank-line filter. -/
theorem nonblank_pred {l : List Char} (h : l ≠ []) : (!l.isEmpty) = true := by
  cases l with
  | nil => exact absurd rfl h
  | cons x xs => rfl

/-- Reading a field of a newline-free line yields a well-formed cell. -/
theorem parseField_wf {l : List Char} (hnl : '\n' ∉ l) {f : List Char}
    (hf : f ∈ splitChar ',' l) : CellWF (parseField f) := by
  by_cases hna : f ∈ naValues
  · simp [parseField, hna, CellWF]
  · rw [parseField, if_neg hna]
    exact ⟨not_mem_of_mem_splitChar hf,
      fun hc => hnl (mem_of_mem_splitChar hf hc), hna⟩

/-- Rows produced by a successful tokenization have the header's width and
well-formed cells. -/
theorem parseRows_wf {width n : Nat} (hn : n ≤ width) :
    ∀ {ls : List (List Char)} {rs : List (List Cell)},
      (∀ l ∈ ls, '\n' ∉ l) → parseRows width n ls = .ok rs →
      ∀ r ∈ rs, r.length = n ∧ ∀ c ∈ r, CellWF c := by
  intro ls
  induction ls with
  | nil =>
    intro rs _ h r hr
    cases h
    cases hr
  | cons l ls ih =>
    intro rs hnl h r hr
    by_cases hwide : width < (splitChar ',' l).length
    · rw [parseRows, if_pos hwide] at h
      cases h
    · rw [parseRows, if_neg hwide] at h
      rcases hrec : parseRows width n ls with e | rs'
      · simp only [hrec] at h
        cases h
      · simp only [hrec] at h
        cases h
        rcases List.mem_cons.1 hr with rfl | hr'
        · constructor
          · have hfs := Nat.not_lt.1 hwide
            simp only [List.length_drop, List.length_append, List.length_map,
              List.length_replicate]
            omega
          · intro c hc
            have hc' := List.mem_of_mem_drop hc
            rcases List.mem_append.1 hc' with hc1 | hc2
            · rcases List.mem_map.1 hc1 with ⟨f, hf, rfl⟩
              exact parseField_wf (hnl l (by simp)) hf
            · rw [List.eq_of_mem_replicate hc2]
              trivial
        · exact ih (fun x hx => hnl x (List.mem_cons_of_mem l hx)) hrec r hr'

/-- Tokenizing the serialisation of well-formed rows of full width gives
the rows back. -/
theorem parseRows_rowLine {n : Nat} (hpos : 0 < n) :
    ∀ (rs : List (List Cell)), (∀ r ∈ rs, r.length = n ∧ ∀ c ∈ r, CellWF c) →
      parseRows n n (rs.map rowLine) = .ok rs := by
  intro rs
  induction rs with
  | nil => intro _; rfl
  | cons r rs ih =>
    intro hwf
    have hr := hwf r (by simp)
    have hrne : r ≠ [] := by
      intro h0
      have hlen0 := hr.1
      rw [h0] at hlen0
      simp at hlen0
      omega
    have hsplit : splitChar ',' (rowLine r) = r.map cellField :=
      splitChar_rowLine hrne hr.2
    have hlen : (splitChar ',' (rowLine r)).length = n := by
      rw [hsplit, List.length_map, hr.1]
    rw [List.map_cons, parseRows, if_neg (by omega)]
    simp only [ih (fun x hx => hwf x (List.mem_cons_of_mem r hx))]
    have hmap : (splitChar ',' (rowLine r)).map parseField = r := by
      rw [hsplit]
      exact map_parseField_cellField r hr.2
    simp [hmap, hlen]

/-- C8 counterexample: `"a\n1\nNA\n"` parses to a single-column dataset
with two rows, one cell missing; its export re-parses to only one row (the
missing cell's blank line is skipped), so the round trip loses a row. -/
theorem toCsv_roundtrip_cex :
    parseCSVChars ("a\n1\nNA\n").data = .ok ⟨[['a']], [[some ['1']], [none]]⟩ ∧
      parseCSVChars (toCsv ⟨[['a']], [[some ['1']], [none]]⟩) =
        .ok ⟨[['a']], [[some ['1']]]⟩ := by
  constructor
  · with_unfolding_all rfl
  · with_unfolding_all rfl

/-- C8 (amended). Re-parsing the comma-separated export of a successfully
parsed dataset reproduces it exactly — same row count, same column count,
all cells (missing and non-missing) identical — provided no data row
serialises to a blank line; the only rows that do are all-missing rows of
a single-column dataset, which `read_csv` skips on re-parse. -/
theorem toCsv_roundtrip (s : String) (d : Dataset)
    (h : parseCSVChars s.data = .ok d)
    (hnb : ∀ r ∈ d.rows, rowLine r ≠ []) :
    parseCSVChars (toCsv d) = .ok d := by
  rw [parseCSVChars] at h
  rcases hcl : csvLines s.data with _ | ⟨hl, dls⟩
  · simp only [hcl] at h
    cases h
  · simp only [hcl] at h
    rcases hpr : parseRows (raggedWidth hl dls) (splitChar ',' hl).length dls with e | rs
    · simp only [hpr] at h
      cases h
    · simp only [hpr] at h
      cases h
      have hline : ∀ l ∈ hl :: dls, l ≠ [] ∧ '\n' ∉ l := by
        intro l hlmem
        have hmem2 : l ∈ csvLines s.data := by
          rw [hcl]
          exact hlmem
        rw [csvLines] at hmem2
        have h12 := List.mem_filter.1 hmem2
        constructor
        · intro h0
          rw [h0] at h12
          simp at h12
        · exact not_mem_of_mem_splitChar h12.1
      have hnw : (splitChar ',' hl).length ≤ raggedWidth hl dls := Nat.le_max_left _ _
      have hwf : ∀ r ∈ rs, r.length = (splitChar ',' hl).length ∧ ∀ c ∈ r, CellWF c :=
        parseRows_wf hnw (fun l hlm => (hline l (List.mem_cons_of_mem hl hlm)).2) hpr
      have hpos : 0 < (splitChar ',' hl).length := by
        rcases hs : splitChar ',' hl with _ | ⟨f, fs⟩
        · exact absurd hs (splitChar_ne_nil _ _)
        · simp
      have hjoin : joinSep ',' (splitChar ',' hl) = hl := joinSep_splitChar ',' hl
      have hnl2 : ∀ l ∈ hl :: rs.map rowLine, '\n' ∉ l := by
        intro l hlm
        rcases List.mem_cons.1 hlm with rfl | hlm'
        · exact (hline l (by simp)).2
        · rcases List.mem_map.1 hlm' with ⟨r, hrmem, rfl⟩
          exact newline_not_mem_rowLine (hwf r hrmem).2
      have hlines : csvLines (toCsv ⟨splitChar ',' hl, rs⟩) = hl :: rs.map rowLine := by
        simp only [toCsv, hjoin]
        rw [csvLines, splitChar_linesToDoc hnl2, List.filter_append,
          List.filter_eq_self.mpr ?_]
        · simp
        · intro a ha
          rcases List.mem_cons.1 ha with rfl | ha'
          · exact nonblank_pred (hline a (by simp)).1
          · rcases List.mem_map.1 ha' with ⟨r, hrmem, rfl⟩
            exact nonblank_pred (hnb _ hrmem)
      have hw : raggedWidth hl (rs.map rowLine) = (splitChar ',' hl).length := by
        cases rs with
        | nil => simp [raggedWidth]
        | cons r rs' =>
          have hr := hwf r (by simp)
          have hrne : r ≠ [] := by
            intro h0
            have hlen0 := hr.1
            rw [h0] at hlen0
            simp at hlen0
            omega
          simp [raggedWidth, splitChar_rowLine hrne hr.2, hr.1]
      rw [parseCSVChars]
      simp only [hlines, hw, parseRows_rowLine hpos rs hwf]

/-- Witness for `toCsv_roundtrip`: a two-column dataset with a missing
cell survives the round trip unchanged. -/
theorem toCsv_roundtrip_witness :
    parseCSVChars (toCsv ⟨[['a'], ['b']], [[some ['1'], none]]⟩) =
      .ok ⟨[['a'], ['b']], [[some ['1'], none]]⟩ :=
  toCsv_roundtrip "a,b\n1,\n" ⟨[['a'], ['b']], [[some ['1'], none]]⟩
    (by with_unfolding_all rfl) (by decide)

end DataTools
